import Mathlib

/-!
Shallow embedding of the flashcards-srs event-sourced scheduling and
reconciliation core.

Sources:
* `app/api/session-progress/route.ts` — sanitization, history merge,
  progress merge, and the POST handler's pure merge step.
* `app/dashboard/page.tsx` — schedule engine (`nextSchedule`), history
  replay (`progressFromHistory`), and the queue scoring step of
  `buildReviewQueue`.

Modelling conventions: JavaScript numbers that the code floors/validates to
integers are `Int`; the `ease` field and the multiplicative factors are
exact rationals `Rat` (the source's floating point arithmetic on these
small decimal constants is modelled exactly); JS records are association
lists `List (String × _)` (a JS object cannot repeat a key, so key-`Nodup`
is carried as a hypothesis where it matters); a JS `Map` is modelled with
its insertion-order semantics.
-/

/-- Review outcome, `type Grade = "bad" | "mid" | "good"`. -/
inductive Grade where
  | bad
  | mid
  | good
deriving DecidableEq, Repr

/-- A review event, `type ReviewEvent = { ts; grade; cardId }`. -/
structure Event where
  ts : Int
  grade : Grade
  cardId : String
deriving DecidableEq, Repr

/-- Per-card scheduling state, `type CardProgress = { reps; ease; interval; due; goodStreak }`. -/
structure CardProgress where
  reps : Int
  ease : Rat
  interval : Int
  due : Int
  goodStreak : Int
deriving DecidableEq, Repr

/-- The stored payload for one scope: `{ progress, history, updatedAt }`. -/
structure Snapshot where
  progress : List (String × CardProgress)
  history : List Event
  updatedAt : Int
deriving DecidableEq, Repr

/-- Comparator used by `mergeHistory`'s `sort((a, b) => a.ts - b.ts)`. -/
def tsLe (a b : Event) : Prop := a.ts ≤ b.ts

instance : DecidableRel tsLe := fun a b => inferInstanceAs (Decidable (a.ts ≤ b.ts))

instance : IsTotal Event tsLe := ⟨fun a b => le_total a.ts b.ts⟩

instance : IsTrans Event tsLe := ⟨fun _ _ _ h1 h2 => le_trans h1 h2⟩

/-- JS `array.slice(-n)`: the last `n` elements (the whole array when shorter). -/
def takeLast {α : Type} (n : Nat) (l : List α) : List α := l.drop (l.length - n)

/-- Accumulator form of first-occurrence de-duplication (the membership set
of a JS `Map`/`Set` in insertion order). -/
def firstOccurAux {α : Type} [DecidableEq α] (acc : List α) : List α → List α
  | [] => acc
  | a :: t => firstOccurAux (if a ∈ acc then acc else acc ++ [a]) t

/-- Keep the first occurrence of each element, preserving order (JS `Set`
insertion-order semantics, used for the merged id set in `mergeProgress`). -/
def firstOccur {α : Type} [DecidableEq α] (l : List α) : List α := firstOccurAux [] l

/-- Key equality for `mergeHistory`'s map key `` `${ts}|${cardId}|${grade}` ``.
The key string is built from exactly the three event fields (the integer
rendering and the grade literals contain no `|`, so the string determines the
fields), hence key equality is event equality; we compare the fields directly. -/
def sameKeyB (a b : Event) : Bool := a.ts == b.ts && a.cardId == b.cardId && a.grade == b.grade

/-- JS `Map.prototype.set` on the dedup map of `mergeHistory`: replace in
place when the key is present (keeping the original insertion position),
append otherwise. -/
def jsMapSet (m : List Event) (e : Event) : List Event :=
  if m.any (fun x => sameKeyB x e) then m.map (fun x => if sameKeyB x e then e else x) else m ++ [e]

/-- Fold of `map.set(key(event), event)` over a list of events. -/
def jsDedupAux (acc : List Event) : List Event → List Event
  | [] => acc
  | e :: t => jsDedupAux (jsMapSet acc e) t

/-- The values of `mergeHistory`'s dedup map after inserting every event. -/
def jsDedup (l : List Event) : List Event := jsDedupAux [] l

/-- `mergeHistory(remote, incoming)` from `route.ts` lines 131–144: dedup by
the `(ts, cardId, grade)` key over `[...remote, ...incoming]`, stable sort by
`ts` (JS `Array.prototype.sort` is stable; `insertionSort` with a non-strict
comparator is the same stable sort), then `slice(-5000)`. -/
def mergeHistory (remote incoming : List Event) : List Event :=
  takeLast 5000 (List.insertionSort tsLe (jsDedup (remote ++ incoming)))

/-- `progressRank(row)` from `route.ts` lines 146–149 (`-1` for a missing row). -/
def progressRank (row : Option CardProgress) : Int :=
  match row with
  | none => -1
  | some r => r.reps * 100000 + r.goodStreak * 1000 + r.interval

/-- One step of `latestEventByCard` seen from a fixed card id: the stored
value (`map.get(cardId) ?? 0`) is overwritten only when `event.ts > prev`. -/
def latestStep (id : String) (acc : Int) (e : Event) : Int :=
  if e.cardId = id then (if acc < e.ts then e.ts else acc) else acc

/-- Per-id view of `latestEventByCard` (`route.ts` lines 120–129): the map
read back with `map.get(id) ?? 0`. -/
def latestEventByCard (events : List Event) (id : String) : Int :=
  events.foldl (latestStep id) 0

/-- Body of the per-id loop of `mergeProgress` (`route.ts` lines 164–206);
`continue` without assignment is `none`. -/
def mergeWinner (remoteRow incomingRow : Option CardProgress) (remoteTs incomingTs : Int)
    (remoteUpdatedAt incomingUpdatedAt : Int) : Option CardProgress :=
  if remoteTs < incomingTs then incomingRow
  else if incomingTs < remoteTs then remoteRow
  else
    match remoteRow, incomingRow with
    | some r, none => some r
    | none, some i => some i
    | none, none => none
    | some r, some i =>
      if progressRank (some r) < progressRank (some i) then some i
      else if progressRank (some i) < progressRank (some r) then some r
      else if remoteUpdatedAt ≤ incomingUpdatedAt then some i else some r

/-- `mergeProgress` from `route.ts` lines 151–209. The id set
`new Set([...Object.keys(remote), ...Object.keys(incoming)])` iterates in
insertion order, i.e. remote keys first then new incoming keys. -/
def mergeProgress (remote incoming : List (String × CardProgress))
    (remoteHistory incomingHistory : List Event)
    (remoteUpdatedAt incomingUpdatedAt : Int) : List (String × CardProgress) :=
  let ids := firstOccur (remote.map Prod.fst ++ incoming.map Prod.fst)
  ids.filterMap (fun id =>
    (mergeWinner (List.lookup id remote) (List.lookup id incoming)
      (latestEventByCard remoteHistory id) (latestEventByCard incomingHistory id)
      remoteUpdatedAt incomingUpdatedAt).map (fun row => (id, row)))

/-- The merge step of the POST handler (`route.ts` lines 310–325): merged
history and progress plus the `updatedAt` high-water mark. -/
def mergeSnapshots (remote incoming : Snapshot) : Snapshot :=
  let mergedHistory := mergeHistory remote.history incoming.history
  let mergedProgress := mergeProgress remote.progress incoming.progress
    remote.history incoming.history remote.updatedAt incoming.updatedAt
  let latestEventTs := match mergedHistory.getLast? with
    | some e => e.ts
    | none => 0
  { progress := mergedProgress, history := mergedHistory,
    updatedAt := max (max remote.updatedAt incoming.updatedAt) latestEventTs }

/-- A raw (unvalidated) history entry as it appears in a request body. -/
structure RawEvent where
  ts : Option Int
  grade : Option String
  cardId : Option String

/-- A raw (unvalidated) progress row as it appears in a request body. -/
structure RawRow where
  reps : Option Rat
  ease : Option Rat
  interval : Option Rat
  due : Option Rat
  goodStreak : Option Rat

/-- The grade-string check of `sanitizeHistory`. -/
def parseGrade (s : String) : Option Grade :=
  if s = "bad" then some Grade.bad
  else if s = "mid" then some Grade.mid
  else if s = "good" then some Grade.good
  else none

/-- `sanitizeHistory` from `route.ts` lines 85–99: a non-array (in particular
an absent field) becomes `[]`; entries must have a numeric `ts`, a string
`cardId` and a valid grade; then `slice(-5000)`. -/
def sanitizeHistory (value : Option (List RawEvent)) : List Event :=
  match value with
  | none => []
  | some items => takeLast 5000 (items.filterMap (fun item =>
      match item.ts, item.cardId, item.grade with
      | some t, some c, some g => (parseGrade g).map (fun gr => { ts := t, grade := gr, cardId := c })
      | _, _, _ => none))

/-- One row of `sanitizeProgress` (`route.ts` lines 65–79): defaults, floor
and clamp. -/
def sanitizeRow (row : RawRow) : CardProgress :=
  { reps := max 0 ⌊row.reps.getD 0⌋
    ease := max 1.2 (min 3 (row.ease.getD 2))
    interval := max 0 ⌊row.interval.getD 0⌋
    due := max 0 ⌊row.due.getD 0⌋
    goodStreak := max 0 ⌊row.goodStreak.getD 0⌋ }

/-- `sanitizeProgress` from `route.ts` lines 56–83: a non-object (in
particular an absent field) becomes `{}`. -/
def sanitizeProgress (value : Option (List (String × RawRow))) : List (String × CardProgress) :=
  match value with
  | none => []
  | some rows => rows.map (fun p => (p.1, sanitizeRow p.2))

/-- `normalizeUpdatedAt` from `route.ts` lines 101–105. -/
def normalizeUpdatedAt (value : Option Int) : Int :=
  match value with
  | none => 0
  | some n => if n ≤ 0 then 0 else n

/-- The POST request body (`type SessionPayload` plus the extra
`cardId`/`grade`/`ts` fields that `logReviewAction` in
`dashboard/page.tsx` actually sends; the server type omits them). -/
structure SessionPayload where
  code : Option String
  progress : Option (List (String × RawRow))
  history : Option (List RawEvent)
  updatedAt : Option Int
  reset : Bool
  cardId : Option String
  grade : Option String
  ts : Option Int

/-- The pure state transformation of the POST handler (`route.ts` lines
274–326) on a successful request: build the sanitized incoming payload
(`updatedAt || Date.now()` with `now` passed in) and, unless `reset`, merge
it with the stored remote payload. -/
def postStoredPayload (body : SessionPayload) (remote : Snapshot) (now : Int) : Snapshot :=
  let n := normalizeUpdatedAt body.updatedAt
  let incoming : Snapshot :=
    { progress := sanitizeProgress body.progress
      history := sanitizeHistory body.history
      updatedAt := if n = 0 then now else n }
  if body.reset then incoming else mergeSnapshots remote incoming

/-- The exact body sent by `logReviewAction` (`dashboard/page.tsx` lines
360–379): `JSON.stringify({ code, cardId, grade, ts })`, so `progress`,
`history`, `updatedAt` and `reset` are absent. -/
def singleActionBody (code cardId grade : String) (ts : Int) : SessionPayload :=
  { code := some code, progress := none, history := none, updatedAt := none,
    reset := false, cardId := some cardId, grade := some grade, ts := some ts }

/-- The empty stored snapshot `{ progress: {}, history: [], updatedAt: 0 }`. -/
def emptySnapshot : Snapshot := { progress := [], history := [], updatedAt := 0 }

/-- `dayNumber(ts)` from `dashboard/page.tsx`: `Math.floor(ts / DAY_MS)`. -/
def dayNumber (ts : Int) : Int := Int.fdiv ts 86400000

/-- JS `Math.round`: round half toward positive infinity. -/
def roundHalfUp (q : Rat) : Int := ⌊q + 1/2⌋

/-- `defaultProgress()` from `dashboard/page.tsx`. -/
def defaultProgress : CardProgress :=
  { reps := 0, ease := 2, interval := 0, due := 0, goodStreak := 0 }

/-- The ease multiplier table `{ bad: 0.88, mid: 0.96, good: 1.08 }`. -/
def easeFactor : Grade → Rat
  | Grade.bad => 0.88
  | Grade.mid => 0.96
  | Grade.good => 1.08

/-- `nextSchedule(card, grade, reviewedAt)` from `dashboard/page.tsx` lines
180–208. Only the five progress fields of the card are read. `card.interval
|| 1` maps `0` to `1` before the outer `max(1, ·)`. -/
def nextSchedule (card : CardProgress) (grade : Grade) (reviewedAt : Int) : CardProgress :=
  let baseInterval : Int := max 1 (if card.interval = 0 then 1 else card.interval)
  let nextGoodStreak : Int := if grade = Grade.good then card.goodStreak + 1 else 0
  let nextEase : Rat := max 1.2 (min 3.0 (card.ease * easeFactor grade))
  let nextInterval : Int :=
    if grade = Grade.bad then 1
    else if grade = Grade.mid then 1
    else if nextGoodStreak = 1 then max 2 (roundHalfUp ((baseInterval : Rat) * 1.6))
    else if nextGoodStreak = 2 then max 7 (roundHalfUp ((baseInterval : Rat) * 2.8))
    else min 365 (max 30 (roundHalfUp ((baseInterval : Rat) * 4.5)) + (nextGoodStreak - 3) * 30)
  { reps := card.reps + 1, ease := nextEase, interval := nextInterval,
    due := dayNumber reviewedAt + nextInterval, goodStreak := nextGoodStreak }

/-- One step of `progressFromHistory`: `map[event.cardId] =
nextSchedule(prev-or-default, event.grade, event.ts)`. The record is
modelled as its lookup function. -/
def progressStep (m : String → Option CardProgress) (e : Event) : String → Option CardProgress :=
  fun id => if id = e.cardId then some (nextSchedule ((m e.cardId).getD defaultProgress) e.grade e.ts) else m id

/-- `progressFromHistory(events)` from `dashboard/page.tsx` lines 210–220. -/
def progressFromHistory (events : List Event) : String → Option CardProgress :=
  events.foldl progressStep (fun _ => none)

/-- The last-grade adjustment of the `buildReviewQueue` scoring step. -/
def gradeAdjust (lastGrade : Option Grade) : Int :=
  match lastGrade with
  | some Grade.bad => 18
  | some Grade.mid => 8
  | some Grade.good => -4
  | none => 0

/-- The steps-since-seen adjustment of the `buildReviewQueue` scoring step. -/
def stepsAdjust (steps : Option Int) : Int :=
  match steps with
  | none => 8
  | some k => if k ≤ 1 then -12 else if k ≤ 3 then -6 else if k ≤ 7 then -2 else 0

/-- The scoring step of `buildReviewQueue` (`dashboard/page.tsx` lines
131–157) for one card, with the two lookback-map reads
(`lastGradeByCard.get(card.id)` and `stepsSinceSeen.get(card.id)`) passed
in as arguments. -/
def cardScore (card : CardProgress) (lastGrade : Option Grade) (steps : Option Int) (today : Int) : Int :=
  let s1 : Int := 10
  let s2 := if card.reps ≤ 0 then s1 + 24 else s1
  let s3 := if card.due ≤ today then s2 + (14 + min 10 (today - card.due)) else s2
  let s4 := s3 + max 0 (5 - card.goodStreak) * 2
  let s5 := s4 + max 0 (3 - card.interval)
  let s6 := s5 + gradeAdjust lastGrade
  s6 + stepsAdjust steps

/-!
Definitions written from the specification's words, used to compare the
implementation against the spec's phrasing (refinement claims only; the
definitions above this point are translated from the source).
-/

/-- Code-point lexicographic order on character lists: the `<=` order JS
applies to card-identifier strings. -/
def charListLe : List Char → List Char → Bool
  | [], _ => true
  | _ :: _, [] => false
  | c :: cs, d :: ds =>
    if c.toNat < d.toNat then true
    else if d.toNat < c.toNat then false
    else charListLe cs ds

/-- Spec-claimed comparator for the merged history: timestamp, then card
identifier (lexicographically) as the tie-break among equal timestamps. -/
def tsThenCardLe (a b : Event) : Prop :=
  a.ts < b.ts ∨ (a.ts = b.ts ∧ charListLe a.cardId.data b.cardId.data = true)

instance : DecidableRel tsThenCardLe := fun a b =>
  inferInstanceAs (Decidable (a.ts < b.ts ∨ (a.ts = b.ts ∧ charListLe a.cardId.data b.cardId.data = true)))

/-- The history merge as the claim states it: union, de-duplicated by exact
key, sorted by timestamp with cardId-then-insertion-order tie-break,
truncated to the most recent 5000 events. -/
def claimedMergeHistory (remote incoming : List Event) : List Event :=
  takeLast 5000 (List.insertionSort tsThenCardLe (firstOccur (remote ++ incoming)))

/-- One step of the spec-side most-recent-event timestamp for a card:
`none` when the card has no event yet. -/
def lastTsStep (id : String) (acc : Option Int) (e : Event) : Option Int :=
  if e.cardId = id then
    (match acc with
     | none => some e.ts
     | some m => some (max m e.ts))
  else acc

/-- The most recent event timestamp a history holds for a card, `none` when
the history has no event for it (spec: "each side's most-recent-event
timestamp for that card from its own history"). -/
def lastEventTsOpt (events : List Event) (id : String) : Option Int :=
  events.foldl (lastTsStep id) none

/-- The claim's progress rank `repetitions*100000 + streak*1000 + interval`. -/
def claimedRank (r : CardProgress) : Int :=
  r.reps * 100000 + r.goodStreak * 1000 + r.interval

/-- The claim's equal-timestamp fallback: higher rank wins (a present row
beats an absent one); on a rank tie the side with the newer overall
`updatedAt` watermark wins (the code resolves an exact `updatedAt` tie
toward the incoming side). -/
def claimedTieBreak (remoteRow incomingRow : Option CardProgress)
    (remoteUpdatedAt incomingUpdatedAt : Int) : Option CardProgress :=
  match remoteRow, incomingRow with
  | some r, none => some r
  | none, some i => some i
  | none, none => none
  | some r, some i =>
    if claimedRank r < claimedRank i then some i
    else if claimedRank i < claimedRank r then some r
    else if remoteUpdatedAt ≤ incomingUpdatedAt then some i else some r

/-- The per-card winner rule as the claim states it: the side whose own
history has the strictly newer most-recent event timestamp for the card
wins outright and its row (possibly absent) is taken as-is; on equal
latest-event timestamps (including both absent) fall back to the rank and
watermark tie-break. -/
def claimedWinner (remote incoming : List (String × CardProgress))
    (remoteHistory incomingHistory : List Event)
    (remoteUpdatedAt incomingUpdatedAt : Int) (id : String) : Option CardProgress :=
  match lastEventTsOpt remoteHistory id, lastEventTsOpt incomingHistory id with
  | some tr, some ti =>
    if tr < ti then List.lookup id incoming
    else if ti < tr then List.lookup id remote
    else claimedTieBreak (List.lookup id remote) (List.lookup id incoming)
      remoteUpdatedAt incomingUpdatedAt
  | none, some _ => List.lookup id incoming
  | some _, none => List.lookup id remote
  | none, none => claimedTieBreak (List.lookup id remote) (List.lookup id incoming)
    remoteUpdatedAt incomingUpdatedAt

/-- The queue score as the claim states it: the overdue bonus
`14 + min(10, today - due)` is granted exactly when `repetitions > 0` and
`due ≤ today`. -/
def claimedScore (card : CardProgress) (lastGrade : Option Grade) (steps : Option Int) (today : Int) : Int :=
  10 + (if card.reps ≤ 0 then 24 else 0)
    + (if 0 < card.reps ∧ card.due ≤ today then 14 + min 10 (today - card.due) else 0)
    + max 0 (5 - card.goodStreak) * 2 + max 0 (3 - card.interval)
    + gradeAdjust lastGrade + stepsAdjust steps

/-- The queue score with the overdue condition the code actually uses:
`due ≤ today` alone, with no `repetitions > 0` guard. -/
def amendedClaimedScore (card : CardProgress) (lastGrade : Option Grade) (steps : Option Int) (today : Int) : Int :=
  10 + (if card.reps ≤ 0 then 24 else 0)
    + (if card.due ≤ today then 14 + min 10 (today - card.due) else 0)
    + max 0 (5 - card.goodStreak) * 2 + max 0 (3 - card.interval)
    + gradeAdjust lastGrade + stepsAdjust steps

/-- A sanitized (clamped) progress row, as produced by `sanitizeProgress`. -/
def ClampedRow (r : CardProgress) : Prop :=
  0 ≤ r.reps ∧ 6/5 ≤ r.ease ∧ r.ease ≤ 3 ∧ 0 ≤ r.interval ∧ 0 ≤ r.due ∧ 0 ≤ r.goodStreak

instance : DecidablePred ClampedRow := fun r =>
  inferInstanceAs (Decidable (0 ≤ r.reps ∧ 6/5 ≤ r.ease ∧ r.ease ≤ 3 ∧ 0 ≤ r.interval ∧ 0 ≤ r.due ∧ 0 ≤ r.goodStreak))

/-!
Supporting lemmas about the insertion-ordered containers and association
lists used by the reconciliation engine.
-/

theorem mem_firstOccurAux {α : Type} [DecidableEq α] (l : List α) :
    ∀ (acc : List α) (x : α), x ∈ firstOccurAux acc l ↔ x ∈ acc ∨ x ∈ l := by
  induction l with
  | nil => intro acc x; simp [firstOccurAux]
  | cons a t ih =>
    intro acc x
    unfold firstOccurAux
    by_cases h : a ∈ acc
    · rw [if_pos h, ih]
      simp only [List.mem_cons]
      constructor
      · rintro (hx | hx)
        · exact Or.inl hx
        · exact Or.inr (Or.inr hx)
      · rintro (hx | rfl | hx)
        · exact Or.inl hx
        · exact Or.inl h
        · exact Or.inr hx
    · rw [if_neg h, ih]
      simp only [List.mem_append, List.mem_singleton, List.mem_cons]
      tauto

theorem mem_firstOccur {α : Type} [DecidableEq α] (l : List α) (x : α) :
    x ∈ firstOccur l ↔ x ∈ l := by
  unfold firstOccur
  rw [mem_firstOccurAux]
  simp

theorem nodup_firstOccurAux {α : Type} [DecidableEq α] (l : List α) :
    ∀ acc : List α, acc.Nodup → (firstOccurAux acc l).Nodup := by
  induction l with
  | nil => intro acc h; exact h
  | cons a t ih =>
    intro acc h
    unfold firstOccurAux
    by_cases ha : a ∈ acc
    · rw [if_pos ha]; exact ih acc h
    · rw [if_neg ha]
      refine ih _ ?_
      simp [List.nodup_append, h, ha]

theorem nodup_firstOccur {α : Type} [DecidableEq α] (l : List α) : (firstOccur l).Nodup :=
  nodup_firstOccurAux l [] List.nodup_nil

theorem firstOccurAux_of_subset {α : Type} [DecidableEq α] (l : List α) :
    ∀ acc : List α, (∀ a ∈ l, a ∈ acc) → firstOccurAux acc l = acc := by
  induction l with
  | nil => intro acc _; rfl
  | cons a t ih =>
    intro acc h
    unfold firstOccurAux
    rw [if_pos (h a (List.mem_cons_self a t))]
    exact ih acc fun x hx => h x (List.mem_cons_of_mem a hx)

theorem firstOccurAux_append {α : Type} [DecidableEq α] (l₁ l₂ : List α) :
    ∀ acc : List α, firstOccurAux acc (l₁ ++ l₂) = firstOccurAux (firstOccurAux acc l₁) l₂ := by
  induction l₁ with
  | nil => intro acc; rfl
  | cons a t ih =>
    intro acc
    simp only [List.cons_append]
    rw [show firstOccurAux acc (a :: (t ++ l₂))
          = firstOccurAux (if a ∈ acc then acc else acc ++ [a]) (t ++ l₂) from rfl,
        show firstOccurAux acc (a :: t)
          = firstOccurAux (if a ∈ acc then acc else acc ++ [a]) t from rfl]
    exact ih _

theorem firstOccur_append_self {α : Type} [DecidableEq α] (l : List α) :
    firstOccur (l ++ l) = firstOccur l := by
  unfold firstOccur
  rw [firstOccurAux_append]
  exact firstOccurAux_of_subset l _ fun a ha => by
    rw [show firstOccurAux [] l = firstOccur l from rfl, mem_firstOccur]
    exact ha

theorem firstOccurAux_of_disjoint {α : Type} [DecidableEq α] (l : List α) :
    ∀ acc : List α, l.Nodup → (∀ a ∈ l, a ∉ acc) → firstOccurAux acc l = acc ++ l := by
  induction l with
  | nil => intro acc _ _; simp [firstOccurAux]
  | cons a t ih =>
    intro acc hnd hdisj
    unfold firstOccurAux
    rw [if_neg (hdisj a (List.mem_cons_self a t))]
    rw [List.nodup_cons] at hnd
    rw [ih _ hnd.2 ?_]
    · simp
    · intro x hx
      simp only [List.mem_append, List.mem_singleton]
      rintro (hxa | rfl)
      · exact hdisj x (List.mem_cons_of_mem a hx) hxa
      · exact hnd.1 hx

theorem firstOccur_of_nodup {α : Type} [DecidableEq α] (l : List α) (h : l.Nodup) :
    firstOccur l = l := by
  unfold firstOccur
  rw [firstOccurAux_of_disjoint l [] h (by simp)]
  simp

theorem sameKeyB_iff (a b : Event) : sameKeyB a b = true ↔ a = b := by
  cases a
  cases b
  simp only [sameKeyB, Bool.and_eq_true, beq_iff_eq, Event.mk.injEq]
  tauto

theorem jsMapSet_eq (m : List Event) (e : Event) :
    jsMapSet m e = if e ∈ m then m else m ++ [e] := by
  unfold jsMapSet
  by_cases hm : e ∈ m
  · rw [if_pos hm, if_pos]
    · have : ∀ l : List Event, l.map (fun x => if sameKeyB x e then e else x) = l := by
        intro l
        induction l with
        | nil => rfl
        | cons x t ih =>
          simp only [List.map_cons, ih]
          by_cases hx : sameKeyB x e
          · rw [if_pos hx, (sameKeyB_iff x e).mp hx]
          · rw [if_neg hx]
      exact this m
    · exact List.any_eq_true.mpr ⟨e, hm, (sameKeyB_iff e e).mpr rfl⟩
  · rw [if_neg hm, if_neg]
    intro hany
    obtain ⟨x, hx, hk⟩ := List.any_eq_true.mp hany
    exact hm ((sameKeyB_iff x e).mp hk ▸ hx)

theorem jsDedupAux_eq_firstOccurAux (l : List Event) :
    ∀ acc : List Event, jsDedupAux acc l = firstOccurAux acc l := by
  induction l with
  | nil => intro acc; rfl
  | cons e t ih =>
    intro acc
    rw [show jsDedupAux acc (e :: t) = jsDedupAux (jsMapSet acc e) t from rfl,
        show firstOccurAux acc (e :: t) = firstOccurAux (if e ∈ acc then acc else acc ++ [e]) t from rfl,
        jsMapSet_eq]
    exact ih _

theorem jsDedup_eq_firstOccur (l : List Event) : jsDedup l = firstOccur l :=
  jsDedupAux_eq_firstOccurAux l []

theorem takeLast_of_length_le {α : Type} (n : Nat) (l : List α) (h : l.length ≤ n) :
    takeLast n l = l := by
  unfold takeLast
  rw [Nat.sub_eq_zero_of_le h, List.drop_zero]

theorem lookup_eq_none_of_not_mem {β : Type} (l : List (String × β)) (id : String)
    (h : id ∉ l.map Prod.fst) : List.lookup id l = none := by
  induction l with
  | nil => rfl
  | cons p t ih =>
    obtain ⟨k, v⟩ := p
    simp only [List.map_cons, List.mem_cons] at h
    push_neg at h
    have hbeq : (id == k) = false := beq_eq_false_iff_ne.mpr h.1
    simp [List.lookup, hbeq, ih h.2]

theorem lookup_isSome_of_mem {β : Type} (l : List (String × β)) (id : String)
    (h : id ∈ l.map Prod.fst) : ∃ v, List.lookup id l = some v := by
  induction l with
  | nil => simp at h
  | cons p t ih =>
    obtain ⟨k, v⟩ := p
    by_cases hk : id = k
    · exact ⟨v, by simp [List.lookup, hk]⟩
    · have : id ∈ t.map Prod.fst := by
        simp only [List.map_cons, List.mem_cons] at h
        exact h.resolve_left hk
      obtain ⟨w, hw⟩ := ih this
      exact ⟨w, by simp [List.lookup, beq_eq_false_iff_ne.mpr hk, hw]⟩

theorem lookup_filterMap_pair {β : Type} (ids : List String) (f : String → Option β)
    (id : String) (hN : ids.Nodup) :
    List.lookup id (ids.filterMap (fun i => (f i).map (fun b => (i, b))))
      = if id ∈ ids then f id else none := by
  induction ids with
  | nil => simp
  | cons i t ih =>
    rw [List.nodup_cons] at hN
    have iht := ih hN.2
    simp only [List.filterMap_cons]
    by_cases hid : id = i
    · subst hid
      cases hfi : f id with
      | none =>
        simp only [Option.map_none']
        rw [iht, if_pos (List.mem_cons_self id t), hfi]
        rw [if_neg (fun hmem => hN.1 hmem)]
      | some b =>
        simp only [Option.map_some']
        simp [List.lookup, hfi]
    · have hbeq : (id == i) = false := beq_eq_false_iff_ne.mpr hid
      cases hfi : f i with
      | none =>
        simp only [Option.map_none']
        rw [iht]
        simp [List.mem_cons, hid]
      | some b =>
        simp only [Option.map_some']
        simp only [List.lookup, hbeq]
        rw [iht]
        simp [List.mem_cons, hid]

theorem mergeWinner_none (rts its rU iU : Int) :
    mergeWinner none none rts its rU iU = none := by
  unfold mergeWinner
  split_ifs <;> rfl

theorem mergeWinner_self (r : CardProgress) (t u : Int) :
    mergeWinner (some r) (some r) t t u u = some r := by
  simp [mergeWinner, lt_irrefl]

theorem mergeProgress_lookup (remote incoming : List (String × CardProgress))
    (rH iH : List Event) (rU iU : Int) (id : String) :
    List.lookup id (mergeProgress remote incoming rH iH rU iU)
      = mergeWinner (List.lookup id remote) (List.lookup id incoming)
          (latestEventByCard rH id) (latestEventByCard iH id) rU iU := by
  unfold mergeProgress
  rw [lookup_filterMap_pair _ _ _ (nodup_firstOccur _)]
  by_cases hmem : id ∈ firstOccur (remote.map Prod.fst ++ incoming.map Prod.fst)
  · rw [if_pos hmem]
  · rw [if_neg hmem]
    rw [mem_firstOccur, List.mem_append] at hmem
    push_neg at hmem
    rw [lookup_eq_none_of_not_mem _ _ hmem.1, lookup_eq_none_of_not_mem _ _ hmem.2,
      mergeWinner_none]

theorem latest_foldl_eq (id : String) :
    ∀ (events : List Event) (oacc : Option Int),
      (∀ e ∈ events, 0 < e.ts) → (∀ m, oacc = some m → 0 < m) →
      events.foldl (latestStep id) (oacc.getD 0) = (events.foldl (lastTsStep id) oacc).getD 0
        ∧ (∀ m, events.foldl (lastTsStep id) oacc = some m → 0 < m) := by
  intro events
  induction events with
  | nil => intro oacc _ h2; exact ⟨rfl, h2⟩
  | cons e t ih =>
    intro oacc h1 h2
    have he : 0 < e.ts := h1 e (List.mem_cons_self e t)
    have ht : ∀ x ∈ t, 0 < x.ts := fun x hx => h1 x (List.mem_cons_of_mem e hx)
    simp only [List.foldl_cons]
    by_cases hc : e.cardId = id
    · cases oacc with
      | none =>
        have hstep : latestStep id ((none : Option Int).getD 0) e = e.ts := by
          simp [latestStep, hc, he]
        have hostep : lastTsStep id none e = some e.ts := by
          simp [lastTsStep, hc]
        rw [hstep, hostep]
        have := ih (some e.ts) ht (fun m hm => by
          rw [Option.some_inj] at hm
          exact hm ▸ he)
        simpa using this
      | some m =>
        have hm : 0 < m := h2 m rfl
        have hstep : latestStep id ((some m : Option Int).getD 0) e = max m e.ts := by
          rcases lt_or_le m e.ts with h | h
          · simp [latestStep, hc, h, max_eq_right h.le]
          · simp [latestStep, hc, not_lt.mpr h, max_eq_left h]
        have hostep : lastTsStep id (some m) e = some (max m e.ts) := by
          simp [lastTsStep, hc]
        rw [hstep, hostep]
        have := ih (some (max m e.ts)) ht (fun k hk => by
          rw [Option.some_inj] at hk
          exact hk ▸ lt_max_of_lt_left hm)
        simpa using this
    · have hstep : latestStep id (oacc.getD 0) e = oacc.getD 0 := by
        simp [latestStep, hc]
      have hostep : lastTsStep id oacc e = oacc := by
        simp [lastTsStep, hc]
      rw [hstep, hostep]
      exact ih oacc ht h2

theorem latestEventByCard_eq_lastTs (events : List Event) (id : String)
    (h : ∀ e ∈ events, 0 < e.ts) :
    latestEventByCard events id = (lastEventTsOpt events id).getD 0 :=
  (latest_foldl_eq id events none h (fun m hm => by cases hm)).1

theorem lastEventTsOpt_pos (events : List Event) (id : String)
    (h : ∀ e ∈ events, 0 < e.ts) :
    ∀ m, lastEventTsOpt events id = some m → 0 < m :=
  (latest_foldl_eq id events none h (fun m hm => by cases hm)).2

theorem progress_foldl_filter (id : String) :
    ∀ (events : List Event) (m : String → Option CardProgress),
      (events.foldl progressStep m) id
        = ((events.filter (fun e => e.cardId == id)).foldl
            (fun st e => some (nextSchedule (st.getD defaultProgress) e.grade e.ts)) (m id)) := by
  intro events
  induction events with
  | nil => intro m; rfl
  | cons e t ih =>
    intro m
    simp only [List.foldl_cons, List.filter_cons]
    by_cases hc : e.cardId = id
    · rw [if_pos (by simp [hc])]
      simp only [List.foldl_cons]
      rw [ih]
      have : progressStep m e id = some (nextSchedule ((m id).getD defaultProgress) e.grade e.ts) := by
        simp [progressStep, hc]
      rw [this]
    · rw [if_neg (by simp [hc])]
      rw [ih]
      have hne : ¬ id = e.cardId := fun h => hc h.symm
      have : progressStep m e id = m id := by
        simp [progressStep, hne]
      rw [this]

theorem alist_rebuild {β : Type} (l : List (String × β)) (hN : (l.map Prod.fst).Nodup) :
    (l.map Prod.fst).filterMap (fun id => (List.lookup id l).map (fun v => (id, v))) = l := by
  induction l with
  | nil => rfl
  | cons p t ih =>
    obtain ⟨k, v⟩ := p
    simp only [List.map_cons] at hN ⊢
    rw [List.nodup_cons] at hN
    simp only [List.filterMap_cons]
    have hk : List.lookup k ((k, v) :: t) = some v := by simp [List.lookup]
    rw [hk]
    simp only [Option.map_some']
    have hcongr : (t.map Prod.fst).filterMap
        (fun id => (List.lookup id ((k, v) :: t)).map (fun w => (id, w)))
        = (t.map Prod.fst).filterMap (fun id => (List.lookup id t).map (fun w => (id, w))) := by
      refine List.filterMap_congr ?_
      intro id hid
      have hne : (id == k) = false := beq_eq_false_iff_ne.mpr (fun h => hN.1 (h ▸ hid))
      simp [List.lookup, hne]
    rw [hcongr, ih hN.2]

theorem mergeWinner_tie (rr ir : Option CardProgress) (t rU iU : Int) :
    mergeWinner rr ir t t rU iU = claimedTieBreak rr ir rU iU := by
  unfold mergeWinner claimedTieBreak
  simp only [lt_irrefl, if_false]
  cases rr <;> cases ir <;> rfl

/-!
Claim theorems.
-/

/-- C1: a single review action `{code, cardId, grade, ts}` submitted by
`logReviewAction` is NOT wrapped as a one-event snapshot: the POST handler
only reads `body.history` (absent in this payload), so the stored merged
history after the submit is empty — the review event is silently dropped.
This evaluates the embedded POST merge step at the failing input. -/
theorem submit_single_action_history_empty :
    (postStoredPayload (singleActionBody "123456" "a1" "good" 5) emptySnapshot 1000).history = []
      ∧ (postStoredPayload (singleActionBody "123456" "a1" "good" 5) emptySnapshot 1000).progress = [] := by
  decide

/-- C8: three consecutive good outcomes from the identity state yield
intervals 2, then 7, then at least 30 (here 32) with streak 3. -/
theorem three_good_intervals :
    (nextSchedule defaultProgress Grade.good 0).interval = 2
      ∧ (nextSchedule (nextSchedule defaultProgress Grade.good 0) Grade.good 0).interval = 7
      ∧ 30 ≤ (nextSchedule (nextSchedule (nextSchedule defaultProgress Grade.good 0) Grade.good 0) Grade.good 0).interval
      ∧ (nextSchedule (nextSchedule (nextSchedule defaultProgress Grade.good 0) Grade.good 0) Grade.good 0).goodStreak = 3 := by
  have h1 : nextSchedule defaultProgress Grade.good 0
      = { reps := 1, ease := 54/25, interval := 2, due := 2, goodStreak := 1 } := by
    norm_num [nextSchedule, defaultProgress, easeFactor, roundHalfUp, dayNumber, max_def,
      min_def, Int.zero_fdiv]
    decide
  have h2 : nextSchedule { reps := 1, ease := 54/25, interval := 2, due := 2, goodStreak := 1 } Grade.good 0
      = { reps := 2, ease := 1458/625, interval := 7, due := 7, goodStreak := 2 } := by
    norm_num [nextSchedule, easeFactor, roundHalfUp, dayNumber, max_def, min_def, Int.zero_fdiv]
    decide
  have h3 : nextSchedule { reps := 2, ease := 1458/625, interval := 7, due := 7, goodStreak := 2 } Grade.good 0
      = { reps := 3, ease := 39366/15625, interval := 32, due := 32, goodStreak := 3 } := by
    norm_num [nextSchedule, easeFactor, roundHalfUp, dayNumber, max_def, min_def, Int.zero_fdiv]
    decide
  rw [h1, h2, h3]
  norm_num

/-- C9 counterexample: a never-reviewed card (`reps = 0`, `due = 0`) on day 1
does receive the overdue bonus in the code (score 70), while the claimed
rule with the `repetitions > 0` guard gives 55. -/
theorem overdue_bonus_counterexample :
    cardScore defaultProgress none none 1 ≠ claimedScore defaultProgress none none 1 := by
  norm_num [cardScore, claimedScore, gradeAdjust, stepsAdjust, defaultProgress, max_def, min_def]

/-- C9 amended: the overdue bonus `14 + min(10, today - due)` is added
exactly when `due ≤ today`, with no `repetitions > 0` guard; cards with
`repetitions = 0` and `due ≤ today` receive it too. -/
theorem overdue_bonus_rule (card : CardProgress) (lastGrade : Option Grade)
    (steps : Option Int) (today : Int) :
    cardScore card lastGrade steps today = amendedClaimedScore card lastGrade steps today := by
  simp only [cardScore, amendedClaimedScore]
  split_ifs <;> ring

/-- C3 counterexample: two equal-timestamp events arriving as
`[cardId "b", cardId "a"]` stay in that insertion order in the merged
history; the claimed cardId-then-insertion-order tie-break would put
`"a"` first. -/
theorem history_tiebreak_counterexample :
    mergeHistory [{ ts := 1, grade := Grade.good, cardId := "b" },
        { ts := 1, grade := Grade.good, cardId := "a" }] []
      ≠ claimedMergeHistory [{ ts := 1, grade := Grade.good, cardId := "b" },
        { ts := 1, grade := Grade.good, cardId := "a" }] [] := by
  decide

/-- C5 counterexample: swapping two equal-timestamp events of the same card
(a permutation that preserves the non-decreasing timestamp order) changes
the replayed state: grading good-then-bad ends with streak 0, while
bad-then-good ends with streak 1. -/
theorem replay_swap_counterexample :
    List.Pairwise tsLe [{ ts := 1, grade := Grade.good, cardId := "a" },
        { ts := 1, grade := Grade.bad, cardId := "a" }]
      ∧ List.Pairwise tsLe [{ ts := 1, grade := Grade.bad, cardId := "a" },
        { ts := 1, grade := Grade.good, cardId := "a" }]
      ∧ List.Perm [({ ts := 1, grade := Grade.bad, cardId := "a" } : Event),
            { ts := 1, grade := Grade.good, cardId := "a" }]
          [{ ts := 1, grade := Grade.good, cardId := "a" },
            { ts := 1, grade := Grade.bad, cardId := "a" }]
      ∧ (progressFromHistory [{ ts := 1, grade := Grade.good, cardId := "a" },
            { ts := 1, grade := Grade.bad, cardId := "a" }] "a").map CardProgress.goodStreak
          ≠ (progressFromHistory [{ ts := 1, grade := Grade.bad, cardId := "a" },
            { ts := 1, grade := Grade.good, cardId := "a" }] "a").map CardProgress.goodStreak := by
  decide

/-- C6 counterexample: an incoming snapshot with three events (latest
timestamp 3, one exact duplicate) and `updatedAt = 100` merged against the
empty remote snapshot yields a two-event history and `updatedAt = 100`, not
"exactly those 3 events" with `updatedAt` equal to the latest timestamp. -/
theorem merge_three_events_counterexample :
    (mergeSnapshots emptySnapshot
        { progress := [],
          history := [{ ts := 3, grade := Grade.good, cardId := "a" },
            { ts := 1, grade := Grade.good, cardId := "a" },
            { ts := 1, grade := Grade.good, cardId := "a" }],
          updatedAt := 100 }).history.length = 2
      ∧ (mergeSnapshots emptySnapshot
        { progress := [],
          history := [{ ts := 3, grade := Grade.good, cardId := "a" },
            { ts := 1, grade := Grade.good, cardId := "a" },
            { ts := 1, grade := Grade.good, cardId := "a" }],
          updatedAt := 100 }).updatedAt = 100 := by
  decide

/-- C2 counterexample: a snapshot whose (sorted, short, clamped) history
contains an exact duplicate event does not merge idempotently — the
duplicate is collapsed, so the merged history differs from the original. -/
theorem merge_idempotence_counterexample :
    List.Sorted tsLe [{ ts := 1, grade := Grade.good, cardId := "a" },
        { ts := 1, grade := Grade.good, cardId := "a" }]
      ∧ (mergeSnapshots
          { progress := [],
            history := [{ ts := 1, grade := Grade.good, cardId := "a" },
              { ts := 1, grade := Grade.good, cardId := "a" }],
            updatedAt := 1 }
          { progress := [],
            history := [{ ts := 1, grade := Grade.good, cardId := "a" },
              { ts := 1, grade := Grade.good, cardId := "a" }],
            updatedAt := 1 }).history
        ≠ [{ ts := 1, grade := Grade.good, cardId := "a" },
            { ts := 1, grade := Grade.good, cardId := "a" }] := by
  decide

/-- C3 amended: the merged history equals the union of the two histories
de-duplicated by exact `(ts, cardId, grade)` key keeping first occurrences,
stably sorted by timestamp alone (equal-timestamp events keep their
first-occurrence order in remote-then-incoming concatenation, not cardId
order), truncated to the most recent 5000 events; the result is
timestamp-sorted. -/
theorem history_merge_rule (remote incoming : List Event) :
    mergeHistory remote incoming
        = takeLast 5000 (List.insertionSort tsLe (firstOccur (remote ++ incoming)))
      ∧ List.Pairwise tsLe (mergeHistory remote incoming) := by
  constructor
  · unfold mergeHistory
    rw [jsDedup_eq_firstOccur]
  · unfold mergeHistory takeLast
    exact List.Pairwise.sublist (List.drop_sublist _ _) (List.sorted_insertionSort tsLe _)

/-- C2 amended: merging a sanitized snapshot with itself returns its history
and state map unchanged, provided the history additionally contains no exact
duplicate event (`Nodup`; a duplicated event is collapsed by the key-based
dedup) and, as the JS object representation guarantees, the state map has no
repeated card key. -/
theorem merge_idempotent (S : Snapshot)
    (hdup : S.history.Nodup) (hsort : List.Sorted tsLe S.history)
    (hlen : S.history.length ≤ 5000)
    (hkeys : (S.progress.map Prod.fst).Nodup)
    (_hrows : ∀ p ∈ S.progress, ClampedRow p.2) :
    (mergeSnapshots S S).history = S.history ∧ (mergeSnapshots S S).progress = S.progress := by
  have hproj : (mergeSnapshots S S).history = mergeHistory S.history S.history
      ∧ (mergeSnapshots S S).progress
        = mergeProgress S.progress S.progress S.history S.history S.updatedAt S.updatedAt := by
    constructor <;> simp only [mergeSnapshots]
  rw [hproj.1, hproj.2]
  constructor
  · unfold mergeHistory
    rw [jsDedup_eq_firstOccur, firstOccur_append_self, firstOccur_of_nodup _ hdup,
      hsort.insertionSort_eq, takeLast_of_length_le _ _ hlen]
  · unfold mergeProgress
    rw [firstOccur_append_self, firstOccur_of_nodup _ hkeys]
    have hcong : ∀ id ∈ S.progress.map Prod.fst,
        (mergeWinner (List.lookup id S.progress) (List.lookup id S.progress)
          (latestEventByCard S.history id) (latestEventByCard S.history id)
          S.updatedAt S.updatedAt).map (fun row => (id, row))
          = (List.lookup id S.progress).map (fun row => (id, row)) := by
      intro id hid
      obtain ⟨v, hv⟩ := lookup_isSome_of_mem _ _ hid
      rw [hv, mergeWinner_self]
    rw [List.filterMap_congr hcong, alist_rebuild _ hkeys]

/-- C2 witness: a concrete duplicate-free sorted snapshot merges with itself
to itself. -/
theorem merge_idempotent_witness :
    ([{ ts := 1, grade := Grade.good, cardId := "a" }] : List Event).Nodup
      ∧ List.Sorted tsLe [{ ts := 1, grade := Grade.good, cardId := "a" }]
      ∧ ([{ ts := 1, grade := Grade.good, cardId := "a" }] : List Event).length ≤ 5000
      ∧ (([("a", { reps := 1, ease := 2, interval := 1, due := 1, goodStreak := 1 })]
            : List (String × CardProgress)).map Prod.fst).Nodup
      ∧ (∀ p ∈ ([("a", { reps := 1, ease := 2, interval := 1, due := 1, goodStreak := 1 })]
            : List (String × CardProgress)), ClampedRow p.2)
      ∧ ((mergeSnapshots
            { progress := [("a", { reps := 1, ease := 2, interval := 1, due := 1, goodStreak := 1 })],
              history := [{ ts := 1, grade := Grade.good, cardId := "a" }], updatedAt := 1 }
            { progress := [("a", { reps := 1, ease := 2, interval := 1, due := 1, goodStreak := 1 })],
              history := [{ ts := 1, grade := Grade.good, cardId := "a" }], updatedAt := 1 }).history
          = [{ ts := 1, grade := Grade.good, cardId := "a" }]
        ∧ (mergeSnapshots
            { progress := [("a", { reps := 1, ease := 2, interval := 1, due := 1, goodStreak := 1 })],
              history := [{ ts := 1, grade := Grade.good, cardId := "a" }], updatedAt := 1 }
            { progress := [("a", { reps := 1, ease := 2, interval := 1, due := 1, goodStreak := 1 })],
              history := [{ ts := 1, grade := Grade.good, cardId := "a" }], updatedAt := 1 }).progress
          = [("a", { reps := 1, ease := 2, interval := 1, due := 1, goodStreak := 1 })]) :=
  ⟨by decide, by decide, by decide, by decide,
    (by
      intro p hp
      rw [List.mem_singleton] at hp
      subst hp
      norm_num [ClampedRow]),
    merge_idempotent
      { progress := [("a", { reps := 1, ease := 2, interval := 1, due := 1, goodStreak := 1 })],
        history := [{ ts := 1, grade := Grade.good, cardId := "a" }], updatedAt := 1 }
      (by decide) (by decide) (by decide) (by decide)
      (by
        intro p hp
        rw [List.mem_singleton] at hp
        subst hp
        norm_num [ClampedRow])⟩

/-- C6 amended: merging an incoming snapshot with exactly 3 events against
the empty remote snapshot yields exactly those 3 events (sorted as given)
and `updatedAt` equal to the latest timestamp, provided the events are
pairwise distinct, listed in non-decreasing timestamp order with a
non-negative latest timestamp, and the incoming `updatedAt` does not exceed
the latest event timestamp. -/
theorem merge_three_events (e1 e2 e3 : Event) (prog : List (String × CardProgress)) (upd : Int)
    (h12 : e1 ≠ e2) (h13 : e1 ≠ e3) (h23 : e2 ≠ e3)
    (hs12 : e1.ts ≤ e2.ts) (hs23 : e2.ts ≤ e3.ts)
    (h3pos : 0 ≤ e3.ts) (hupd : upd ≤ e3.ts) :
    (mergeSnapshots emptySnapshot
        { progress := prog, history := [e1, e2, e3], updatedAt := upd }).history = [e1, e2, e3]
      ∧ (mergeSnapshots emptySnapshot
        { progress := prog, history := [e1, e2, e3], updatedAt := upd }).updatedAt = e3.ts := by
  have hnodup : ([e1, e2, e3] : List Event).Nodup := by
    simp [List.nodup_cons, h12, h13, h23]
  have hsorted : List.Sorted tsLe [e1, e2, e3] := by
    refine List.Pairwise.cons ?_ (List.Pairwise.cons ?_ (List.pairwise_singleton _ _))
    · intro b hb
      rcases List.mem_cons.mp hb with rfl | hb
      · exact hs12
      · rw [List.mem_singleton] at hb
        subst hb
        exact le_trans hs12 hs23
    · intro b hb
      rw [List.mem_singleton] at hb
      subst hb
      exact hs23
  have hhist : mergeHistory emptySnapshot.history [e1, e2, e3] = [e1, e2, e3] := by
    unfold mergeHistory
    rw [show emptySnapshot.history = ([] : List Event) from rfl, List.nil_append,
      jsDedup_eq_firstOccur, firstOccur_of_nodup _ hnodup, hsorted.insertionSort_eq,
      takeLast_of_length_le _ _ (by simp)]
  have hproj : (mergeSnapshots emptySnapshot
        { progress := prog, history := [e1, e2, e3], updatedAt := upd }).history
          = mergeHistory emptySnapshot.history [e1, e2, e3]
      ∧ (mergeSnapshots emptySnapshot
        { progress := prog, history := [e1, e2, e3], updatedAt := upd }).updatedAt
          = max (max emptySnapshot.updatedAt upd)
              (match (mergeHistory emptySnapshot.history [e1, e2, e3]).getLast? with
                | some e => e.ts
                | none => 0) := by
    constructor <;> simp only [mergeSnapshots]
  refine ⟨hproj.1.trans hhist, ?_⟩
  rw [hproj.2, hhist]
  have hlast : ([e1, e2, e3] : List Event).getLast? = some e3 := rfl
  rw [hlast]
  show max (max emptySnapshot.updatedAt upd) e3.ts = e3.ts
  rw [show emptySnapshot.updatedAt = (0 : Int) from rfl]
  exact max_eq_right (max_le h3pos hupd)

/-- C6 witness: three concrete distinct sorted events with `updatedAt 2`
merge against the empty snapshot to exactly those events and `updatedAt 3`. -/
theorem merge_three_events_witness :
    (mergeSnapshots emptySnapshot
        { progress := [],
          history := [{ ts := 1, grade := Grade.good, cardId := "a" },
            { ts := 2, grade := Grade.mid, cardId := "a" },
            { ts := 3, grade := Grade.good, cardId := "b" }],
          updatedAt := 2 }).history
      = [{ ts := 1, grade := Grade.good, cardId := "a" },
          { ts := 2, grade := Grade.mid, cardId := "a" },
          { ts := 3, grade := Grade.good, cardId := "b" }]
      ∧ (mergeSnapshots emptySnapshot
        { progress := [],
          history := [{ ts := 1, grade := Grade.good, cardId := "a" },
            { ts := 2, grade := Grade.mid, cardId := "a" },
            { ts := 3, grade := Grade.good, cardId := "b" }],
          updatedAt := 2 }).updatedAt = 3 :=
  merge_three_events { ts := 1, grade := Grade.good, cardId := "a" }
    { ts := 2, grade := Grade.mid, cardId := "a" }
    { ts := 3, grade := Grade.good, cardId := "b" } [] 2
    (by decide) (by decide) (by decide) (by decide) (by decide) (by decide) (by decide)

/-- C7: for any state with ease in [1.2, 3.0], any outcome and timestamp,
the advanced state's ease stays in [1.2, 3.0] and equals
`clamp(ease * factor(outcome), 1.2, 3.0)` with factors 0.88/0.96/1.08. -/
theorem advance_ease_clamped (s : CardProgress) (g : Grade) (t : Int)
    (_h1 : 6/5 ≤ s.ease) (_h2 : s.ease ≤ 3) :
    6/5 ≤ (nextSchedule s g t).ease ∧ (nextSchedule s g t).ease ≤ 3
      ∧ (nextSchedule s g t).ease
        = max (6/5) (min 3 (s.ease * (match g with
            | Grade.bad => (88 : Rat)/100
            | Grade.mid => 96/100
            | Grade.good => 108/100))) := by
  have hease : (nextSchedule s g t).ease = max 1.2 (min 3.0 (s.ease * easeFactor g)) := by
    simp only [nextSchedule]
  refine ⟨?_, ?_, ?_⟩
  · rw [hease, show (6/5 : Rat) = 1.2 by norm_num]
    exact le_max_left _ _
  · rw [hease]
    refine max_le (by norm_num) (le_trans (min_le_left _ _) (by norm_num))
  · rw [hease]
    cases g <;> norm_num [easeFactor]

/-- C7 witness: the identity state (ease 2) advanced with a good outcome. -/
theorem advance_ease_clamped_witness :
    (6/5 ≤ defaultProgress.ease ∧ defaultProgress.ease ≤ 3)
      ∧ (6/5 ≤ (nextSchedule defaultProgress Grade.good 0).ease
        ∧ (nextSchedule defaultProgress Grade.good 0).ease ≤ 3
        ∧ (nextSchedule defaultProgress Grade.good 0).ease
          = max (6/5) (min 3 (defaultProgress.ease * (match Grade.good with
              | Grade.bad => (88 : Rat)/100
              | Grade.mid => 96/100
              | Grade.good => 108/100)))) :=
  ⟨⟨by norm_num [defaultProgress], by norm_num [defaultProgress]⟩,
    advance_ease_clamped defaultProgress Grade.good 0
      (by norm_num [defaultProgress]) (by norm_num [defaultProgress])⟩

/-- C4: assuming positive event timestamps (the spec's boundary validation),
each card's merged row is exactly the claim's winner rule: strictly newer
most-recent event timestamp wins outright (its row taken as-is), equal
latest timestamps (including both absent) fall back to the progress rank,
then to the newer overall `updatedAt` watermark. -/
theorem progress_winner_rule (remote incoming : List (String × CardProgress))
    (rH iH : List Event) (rU iU : Int)
    (hR : ∀ e ∈ rH, 0 < e.ts) (hI : ∀ e ∈ iH, 0 < e.ts) :
    ∀ id, List.lookup id (mergeProgress remote incoming rH iH rU iU)
        = claimedWinner remote incoming rH iH rU iU id := by
  intro id
  rw [mergeProgress_lookup, latestEventByCard_eq_lastTs rH id hR,
    latestEventByCard_eq_lastTs iH id hI]
  unfold claimedWinner
  rcases hr : lastEventTsOpt rH id with _ | tr
  · rcases hi : lastEventTsOpt iH id with _ | ti
    · simp only [Option.getD_none]
      exact mergeWinner_tie _ _ 0 rU iU
    · have hpos : 0 < ti := lastEventTsOpt_pos iH id hI ti hi
      simp only [Option.getD_none, Option.getD_some]
      unfold mergeWinner
      rw [if_pos hpos]
  · rcases hi : lastEventTsOpt iH id with _ | ti
    · have hpos : 0 < tr := lastEventTsOpt_pos rH id hR tr hr
      simp only [Option.getD_none, Option.getD_some]
      unfold mergeWinner
      rw [if_neg (by omega), if_pos hpos]
    · simp only [Option.getD_some]
      by_cases hlt : tr < ti
      · unfold mergeWinner
        rw [if_pos hlt, if_pos hlt]
      · by_cases hgt : ti < tr
        · unfold mergeWinner
          rw [if_neg hlt, if_neg hlt, if_pos hgt, if_pos hgt]
        · have heq : tr = ti := le_antisymm (not_lt.mp hgt) (not_lt.mp hlt)
          subst heq
          rw [if_neg hlt, if_neg hgt]
          exact mergeWinner_tie _ _ tr rU iU

/-- C4 witness: a concrete merge where the incoming side holds the newer
event for card "a". -/
theorem progress_winner_rule_witness :
    (∀ e ∈ ([{ ts := 5, grade := Grade.good, cardId := "a" }] : List Event), 0 < e.ts)
      ∧ (∀ e ∈ ([{ ts := 7, grade := Grade.good, cardId := "a" }] : List Event), 0 < e.ts)
      ∧ List.lookup "a" (mergeProgress
          [("a", { reps := 1, ease := 2, interval := 1, due := 1, goodStreak := 1 })]
          [("a", { reps := 2, ease := 2, interval := 2, due := 2, goodStreak := 2 })]
          [{ ts := 5, grade := Grade.good, cardId := "a" }]
          [{ ts := 7, grade := Grade.good, cardId := "a" }] 1 2)
        = claimedWinner
          [("a", { reps := 1, ease := 2, interval := 1, due := 1, goodStreak := 1 })]
          [("a", { reps := 2, ease := 2, interval := 2, due := 2, goodStreak := 2 })]
          [{ ts := 5, grade := Grade.good, cardId := "a" }]
          [{ ts := 7, grade := Grade.good, cardId := "a" }] 1 2 "a" :=
  ⟨by decide, by decide,
    progress_winner_rule
      [("a", { reps := 1, ease := 2, interval := 1, due := 1, goodStreak := 1 })]
      [("a", { reps := 2, ease := 2, interval := 2, due := 2, goodStreak := 2 })]
      [{ ts := 5, grade := Grade.good, cardId := "a" }]
      [{ ts := 7, grade := Grade.good, cardId := "a" }] 1 2
      (by decide) (by decide) "a"⟩

/-- C10: when one side holds the strictly newest event timestamp for a card
but has no state-map row for it, the merged state map has no entry for the
card — the other side's existing row is discarded (both directions, under
positive event timestamps). -/
theorem winner_missing_row_discards (remote incoming : List (String × CardProgress))
    (rH iH : List Event) (rU iU : Int) (id : String)
    (hR : ∀ e ∈ rH, 0 < e.ts) (hI : ∀ e ∈ iH, 0 < e.ts) :
    ((∃ t, lastEventTsOpt iH id = some t ∧ ∀ u, lastEventTsOpt rH id = some u → u < t) →
        List.lookup id incoming = none → (∃ r, List.lookup id remote = some r) →
        List.lookup id (mergeProgress remote incoming rH iH rU iU) = none)
      ∧ ((∃ t, lastEventTsOpt rH id = some t ∧ ∀ u, lastEventTsOpt iH id = some u → u < t) →
        List.lookup id remote = none → (∃ i, List.lookup id incoming = some i) →
        List.lookup id (mergeProgress remote incoming rH iH rU iU) = none) := by
  constructor
  · rintro ⟨t, ht, hlt⟩ hinone _
    rw [mergeProgress_lookup, latestEventByCard_eq_lastTs rH id hR,
      latestEventByCard_eq_lastTs iH id hI, ht]
    have hpos : 0 < t := lastEventTsOpt_pos iH id hI t ht
    have hrts : (lastEventTsOpt rH id).getD 0 < t := by
      rcases hu : lastEventTsOpt rH id with _ | u
      · simpa using hpos
      · simpa using hlt u hu
    unfold mergeWinner
    rw [Option.getD_some, if_pos hrts, hinone]
  · rintro ⟨t, ht, hlt⟩ hrnone _
    rw [mergeProgress_lookup, latestEventByCard_eq_lastTs rH id hR,
      latestEventByCard_eq_lastTs iH id hI, ht]
    have hpos : 0 < t := lastEventTsOpt_pos rH id hR t ht
    have hits : (lastEventTsOpt iH id).getD 0 < t := by
      rcases hu : lastEventTsOpt iH id with _ | u
      · simpa using hpos
      · simpa using hlt u hu
    unfold mergeWinner
    rw [Option.getD_some, if_neg (by omega), if_pos hits, hrnone]

/-- C10 witness: the incoming side has the only (hence newest) event for
card "a" but no row; the remote row for "a" is discarded. -/
theorem winner_missing_row_discards_witness :
    (∀ e ∈ ([] : List Event), 0 < e.ts)
      ∧ (∀ e ∈ ([{ ts := 5, grade := Grade.good, cardId := "a" }] : List Event), 0 < e.ts)
      ∧ List.lookup "a" (mergeProgress
          [("a", { reps := 1, ease := 2, interval := 1, due := 1, goodStreak := 1 })]
          [] [] [{ ts := 5, grade := Grade.good, cardId := "a" }] 1 2)
        = none :=
  ⟨by decide, by decide,
    (winner_missing_row_discards
      [("a", { reps := 1, ease := 2, interval := 1, due := 1, goodStreak := 1 })]
      [] [] [{ ts := 5, grade := Grade.good, cardId := "a" }] 1 2 "a"
      (by decide) (by decide)).1
      ⟨5, rfl, by intro u hu; simp [lastEventTsOpt] at hu⟩
      rfl
      ⟨{ reps := 1, ease := 2, interval := 1, due := 1, goodStreak := 1 }, rfl⟩⟩

/-- C5 amended: replay is invariant under every permutation that preserves
the relative order of each card's own events (in particular,
timestamp-order-preserving permutations that never swap equal-timestamp
events of the same card); stated as: equal per-card subsequences give equal
replayed state for every card. -/
theorem replay_per_card_order (E F : List Event)
    (h : ∀ id, E.filter (fun e => e.cardId == id) = F.filter (fun e => e.cardId == id)) :
    ∀ id, progressFromHistory E id = progressFromHistory F id := by
  intro id
  unfold progressFromHistory
  rw [progress_foldl_filter id E, progress_foldl_filter id F, h id]

/-- C5 witness: two equal-timestamp events of different cards swapped —
per-card subsequences agree, and the replayed state for card "a" agrees. -/
theorem replay_per_card_order_witness :
    (∀ id, ([{ ts := 1, grade := Grade.good, cardId := "a" },
          { ts := 1, grade := Grade.bad, cardId := "b" }] : List Event).filter
            (fun e => e.cardId == id)
        = ([{ ts := 1, grade := Grade.bad, cardId := "b" },
          { ts := 1, grade := Grade.good, cardId := "a" }] : List Event).filter
            (fun e => e.cardId == id))
      ∧ progressFromHistory [{ ts := 1, grade := Grade.good, cardId := "a" },
          { ts := 1, grade := Grade.bad, cardId := "b" }] "a"
        = progressFromHistory [{ ts := 1, grade := Grade.bad, cardId := "b" },
          { ts := 1, grade := Grade.good, cardId := "a" }] "a" := by
  have hfilters : ∀ id, ([{ ts := 1, grade := Grade.good, cardId := "a" },
        { ts := 1, grade := Grade.bad, cardId := "b" }] : List Event).filter
          (fun e => e.cardId == id)
      = ([{ ts := 1, grade := Grade.bad, cardId := "b" },
        { ts := 1, grade := Grade.good, cardId := "a" }] : List Event).filter
          (fun e => e.cardId == id) := by
    intro id
    by_cases ha : "a" = id
    · by_cases hb : "b" = id
      · exact absurd (ha ▸ hb) (by decide)
      · simp [List.filter, ha, beq_eq_false_iff_ne.mpr hb]
    · by_cases hb : "b" = id
      · simp [List.filter, hb, beq_eq_false_iff_ne.mpr ha]
      · simp [List.filter, beq_eq_false_iff_ne.mpr ha, beq_eq_false_iff_ne.mpr hb]
  exact ⟨hfilters,
    replay_per_card_order
      [{ ts := 1, grade := Grade.good, cardId := "a" },
        { ts := 1, grade := Grade.bad, cardId := "b" }]
      [{ ts := 1, grade := Grade.bad, cardId := "b" },
        { ts := 1, grade := Grade.good, cardId := "a" }]
      hfilters "a"⟩
